import Mathlib

/-!
# MorningScraper — verification of `morningscraper/__init__.py`

Shallow embedding of the single source module `morningscraper/__init__.py`.
Python strings are modelled as `List Char`; the BeautifulSoup page object is
modelled as the structured content that `search` actually reads from it
(the three result tables, each a list of rows, the first row being the
header that the source drops with `[1:]`).  Network fetching and the
external `SecurityPage` detail-page extractor are modelled as an explicit
function parameter `fetch : Str → Option α` (absence = `none`), so that
"no fetch is attempted" is expressed as independence from `fetch`.
-/

/-- Python strings, modelled as lists of characters. -/
abbrev Str := List Char

/-- `SITE = 'morningstar.co.uk'` (module-level constant). -/
def SITE : Str := "morningstar.co.uk".data

/-- `SITE_BASE = 'http://www.' + SITE` (module-level constant). -/
def SITE_BASE : Str := "http://www.".data ++ SITE

/-- `fix_url(url)`: prepend `SITE_BASE` when `url` starts with `'/'`,
otherwise return `url` unchanged (source lines 24–28). -/
def fix_url (url : Str) : Str :=
  if List.isPrefixOf "/".data url then SITE_BASE ++ url else url

/-! ## `urllib.parse.urlsplit`, the part `get_url` uses

`get_url` calls `urlsplit(url).netloc`.  CPython's `urlsplit` strips an
optional `scheme:` prefix (a leading ASCII letter followed by letters,
digits, `+`, `-`, `.` up to the first `:`), and then, if the remainder
starts with `//`, takes as `netloc` everything up to the first `/`, `?`
or `#`.  (CPython additionally deletes any tab/CR/LF characters from the
url before splitting; no claim here involves such characters, so that
cleanup step is not modelled.) -/

/-- CPython `scheme_chars`: ASCII letters, digits, `+`, `-`, `.`. -/
def isSchemeChar (c : Char) : Bool :=
  c.isAlpha || c.isDigit || c = '+' || c = '-' || c = '.'

/-- Strip a leading `scheme:` exactly as CPython `urlsplit` does:
the first `:` must appear at index `i > 0`, the first character must be
an ASCII letter, and every character strictly between must be a scheme
character; in that case return the (lowercased) scheme and the rest after
the `:`, otherwise scheme is empty and the url is unchanged. -/
def schemeSplit (url : Str) : Str × Str :=
  match url.findIdx? (fun c => c = ':') with
  | none => ([], url)
  | some i =>
    if 0 < i && (url.take 1).all Char.isAlpha
        && ((url.drop 1).take (i - 1)).all isSchemeChar
    then ((url.take i).map Char.toLower, url.drop (i + 1))
    else ([], url)

/-- `urlsplit(url).netloc`: after scheme stripping, if the rest starts
with `//`, the characters after `//` up to the first `/`, `?` or `#`;
otherwise the empty string. -/
def urlsplitNetloc (url : Str) : Str :=
  let rest := (schemeSplit url).2
  if List.isPrefixOf "//".data rest then
    (rest.drop 2).takeWhile (fun c => !(c = '/' || c = '?' || c = '#'))
  else []

/-- `urlsplit(url).scheme` (empty when no scheme is present). -/
def urlsplitScheme (url : Str) : Str := (schemeSplit url).1

/-- A URL is absolute when it carries both a scheme and a host
(network location), as read off by `urlsplit`. -/
def is_absolute (url : Str) : Bool :=
  decide (urlsplitScheme url ≠ []) && decide (urlsplitNetloc url ≠ [])

/-! ## Errors and `get_url` -/

/-- The error `get_url` raises on an off-site url
(`raise Exception('Non morningstar.co.uk url %r' % url)`, source line 178);
the spec calls it `DomainError`. -/
inductive ScrapeError where
  | domainError (url : Str)
deriving DecidableEq, Repr

/-- `get_url(url)` (source lines 152–183): raise `DomainError` when
`urlsplit(url).netloc` does not end with `SITE`; otherwise delegate to the
external detail-page extractor (`SecurityPage.from_url(url).get_data()`),
modelled by the parameter `fetch`; `none` models Python `None`/falsy
absence. -/
def get_url {α : Type} (fetch : Str → Option α) (url : Str) :
    Except ScrapeError (Option α) :=
  if List.isSuffixOf SITE (urlsplitNetloc url) then .ok (fetch url)
  else .error (.domainError url)

/-! ## The parsed search-results page and `search` -/

/-- A row of the stock results table, holding exactly the pieces the
source reads: `stock.td.text`, `stock.td.a.get('href')`, the text of the
`searchTicker` cell and the text of the `searchCurrency` cell. -/
structure StockRow where
  name : Str
  href : Str
  ticker : Str
  currency : Str
deriving DecidableEq, Repr

/-- A row of a fund or ETF results table: the source reads
`data[0].text`, `data[0].a.get('href')` and `data[1].text`. -/
structure FundRow where
  name : Str
  href : Str
  isin : Str
deriving DecidableEq, Repr

/-- The parsed search-results page, as `search` reads it: for each of the
three table ids (`ctl00_MainContent_stockTable`, `..._fundTable`,
`..._etfTable`) the list of tables `find_all` returns; each table is its
list of `tr` rows including the header row. -/
structure Page where
  stockTables : List (List StockRow)
  fundTables : List (List FundRow)
  etfTables : List (List FundRow)
deriving DecidableEq, Repr

/-- A result dictionary of `search`.  The `type` key is a plain string;
`ticker`/`currency` are present only on stock results and `ISIN` only on
fund/ETF results (absent keys are `none`). -/
structure Candidate where
  name : Str
  url : Str
  type : Str
  ticker : Option Str
  currency : Option Str
  ISIN : Option Str
deriving DecidableEq, Repr

/-- The dictionary `search` appends for one stock row. -/
def mkStockCandidate (r : StockRow) : Candidate :=
  { name := r.name, url := fix_url r.href, type := "Stock".data,
    ticker := some r.ticker, currency := some r.currency, ISIN := none }

/-- The dictionary `search` appends for one fund/ETF row; `ty` is the
loop variable `instrument_type` (`"fund"` or `"etf"`), stored verbatim
under the `type` key. -/
def mkFundCandidate (ty : Str) (r : FundRow) : Candidate :=
  { name := r.name, url := fix_url r.href, type := ty,
    ticker := none, currency := none, ISIN := some r.isin }

/-- The stock part of `search` (source lines 77–91): if the stock-table
list is non-empty, take the first table, drop its header row, and emit a
candidate per remaining row. -/
def stockCandidates (page : Page) : List Candidate :=
  match page.stockTables with
  | [] => []
  | t :: _ => (t.drop 1).map mkStockCandidate

/-- The `for instrument_type in ["fund", "etf"]` loop of `search`
(source lines 93–107): for each family in order, if `find_all` returned a
non-empty table list, emit a candidate per non-header row of the first
table and `break` — even when that table has no non-header rows. -/
def familyLoop : List (Str × List (List FundRow)) → List Candidate
  | [] => []
  | (ty, tables) :: rest =>
    match tables with
    | [] => familyLoop rest
    | t :: _ => (t.drop 1).map (mkFundCandidate ty)

/-- The fund/ETF part of `search`. -/
def fundEtfCandidates (page : Page) : List Candidate :=
  familyLoop [("fund".data, page.fundTables), ("etf".data, page.etfTables)]

/-- `search(ref)` (source lines 31–114), applied to the already-parsed
results page: stock candidates first, then the fund/ETF loop's
candidates. -/
def search (page : Page) : List Candidate :=
  stockCandidates page ++ fundEtfCandidates page

/-! ## `get_data` -/

/-- The loop body of `get_data` (source lines 143–148): for each search
result in order, `get_url` it; a raised error propagates immediately, a
`none` result is skipped, a `some` result is appended. -/
def get_data_loop {α : Type} (fetch : Str → Option α) :
    List Candidate → Except ScrapeError (List α)
  | [] => .ok []
  | item :: rest =>
    match get_url fetch item.url with
    | .error e => .error e
    | .ok data =>
      match get_data_loop fetch rest with
      | .error e => .error e
      | .ok tail =>
        match data with
        | some d => .ok (d :: tail)
        | none => .ok tail

/-- `get_data(ref)` (source lines 117–149), applied to the parsed search
page: run `search`, then resolve each candidate's url in order. -/
def get_data {α : Type} (fetch : Str → Option α) (page : Page) :
    Except ScrapeError (List α) :=
  get_data_loop fetch (search page)

/-! ## Helper lemmas -/

/-- `SITE_BASE` spelled out. -/
lemma SITE_BASE_eq : SITE_BASE = "http://www.morningstar.co.uk".data := rfl

/-- A url with `SITE_BASE` prepended never starts with `/` again. -/
lemma site_base_append_no_slash (url : Str) :
    List.isPrefixOf "/".data (SITE_BASE ++ url) = false := rfl

/-- After prepending `SITE_BASE` to a site-relative path, `urlsplit`
reads off exactly the site host. -/
lemma netloc_site_base (t : Str) :
    urlsplitNetloc (SITE_BASE ++ '/' :: t) = "www.morningstar.co.uk".data := rfl

/-- After prepending `SITE_BASE` to a site-relative path, the result is
an absolute url. -/
lemma is_absolute_site_base (t : Str) :
    is_absolute (SITE_BASE ++ '/' :: t) = true := rfl

/-- Every stock candidate carries `type = "Stock"`. -/
lemma stockCandidates_type (page : Page) :
    ∀ c ∈ stockCandidates page, c.type = "Stock".data := by
  intro c hc
  unfold stockCandidates at hc
  split at hc
  · simp at hc
  · rcases List.mem_map.1 hc with ⟨r, _, rfl⟩
    rfl

/-- Every candidate the fund/ETF loop emits is built by `mkFundCandidate`
from a non-header row of the first table of one of the listed families,
carrying that family's loop-variable string as its `type`. -/
lemma familyLoop_mem :
    ∀ (l : List (Str × List (List FundRow))) (c : Candidate),
      c ∈ familyLoop l →
      ∃ ty t ts r, (ty, t :: ts) ∈ l ∧ r ∈ t.drop 1 ∧ c = mkFundCandidate ty r := by
  intro l
  induction l with
  | nil => intro c hc; simp [familyLoop] at hc
  | cons p rest ih =>
    intro c hc
    obtain ⟨ty, tables⟩ := p
    unfold familyLoop at hc
    cases tables with
    | nil =>
      rcases ih c hc with ⟨ty', t, ts, r, hmem, hr, hc'⟩
      exact ⟨ty', t, ts, r, List.mem_cons_of_mem _ hmem, hr, hc'⟩
    | cons t ts =>
      rcases List.mem_map.1 hc with ⟨r, hr, rfl⟩
      exact ⟨ty, t, ts, r, List.mem_cons_self _ _, hr, rfl⟩

/-- Every candidate of the fund/ETF part has `type` `"fund"` or `"etf"`. -/
lemma fundEtfCandidates_type (page : Page) :
    ∀ c ∈ fundEtfCandidates page, c.type = "fund".data ∨ c.type = "etf".data := by
  intro c hc
  rcases familyLoop_mem _ c hc with ⟨ty, t, ts, r, hmem, _, rfl⟩
  simp only [List.mem_cons, List.not_mem_nil, or_false, Prod.mk.injEq] at hmem
  rcases hmem with ⟨h1, _⟩ | ⟨h1, _⟩
  · exact Or.inl h1
  · exact Or.inr h1

/-! ## Claims about `fix_url` and `get_url` -/

/-- C5: `fix_url(url)` equals `'http://www.morningstar.co.uk' + url`
when `url` begins with `/`, and equals `url` unchanged otherwise; in
particular on `"/uk/funds/x"` and `"http://other.com/x"`.  (`fix_url` is
a pure function of its argument, so it has no side effects.) -/
theorem fix_url_spec :
    (∀ url : Str, List.isPrefixOf "/".data url = true →
      fix_url url = "http://www.morningstar.co.uk".data ++ url) ∧
    (∀ url : Str, List.isPrefixOf "/".data url = false → fix_url url = url) ∧
    fix_url "/uk/funds/x".data = "http://www.morningstar.co.uk/uk/funds/x".data ∧
    fix_url "http://other.com/x".data = "http://other.com/x".data := by
  refine ⟨fun url h => ?_, fun url h => ?_, rfl, rfl⟩
  · rw [fix_url, h, if_pos rfl, SITE_BASE_eq]
  · rw [fix_url, h]
    exact if_neg (by simp)

/-- Witness for C5 at the two concrete urls of the claim. -/
theorem fix_url_spec_witness :
    fix_url "/uk/funds/x".data =
      "http://www.morningstar.co.uk".data ++ "/uk/funds/x".data ∧
    fix_url "http://other.com/x".data = "http://other.com/x".data :=
  ⟨fix_url_spec.1 "/uk/funds/x".data (by decide),
   fix_url_spec.2.1 "http://other.com/x".data (by decide)⟩

/-- C9: `fix_url` is idempotent — the prepended base starts with `h`,
not `/`, so a once-normalized url is never normalized again. -/
theorem fix_url_idem (url : Str) : fix_url (fix_url url) = fix_url url := by
  by_cases h : List.isPrefixOf "/".data url
  · have h1 : fix_url url = SITE_BASE ++ url := by rw [fix_url, if_pos h]
    rw [h1, fix_url, site_base_append_no_slash]
    simp
  · have h1 : fix_url url = url := by rw [fix_url, if_neg h]
    rw [h1]
    exact h1

/-- C1: `get_url` raises `DomainError` exactly when the url's network
location does not end with `'morningstar.co.uk'`; the error case does not
depend on the `fetch` collaborator (no fetch is attempted), and in the
non-error case the call returns exactly what the external detail-page
extractor produces for that url. -/
theorem get_url_domain_guard {α : Type} (fetch : Str → Option α) (url : Str) :
    (List.isSuffixOf SITE (urlsplitNetloc url) = false →
      get_url fetch url = .error (.domainError url)) ∧
    (List.isSuffixOf SITE (urlsplitNetloc url) = true →
      get_url fetch url = .ok (fetch url)) := by
  constructor <;> intro h <;> simp [get_url, h]

/-- Witness for C1: host `evil.com` fails with `DomainError` whatever the
fetcher would do; an on-site url delegates to the fetcher. -/
theorem get_url_domain_guard_witness :
    get_url (fun _ => (some 0 : Option Nat)) "http://evil.com/x".data =
      .error (.domainError "http://evil.com/x".data) ∧
    get_url (fun _ => (some 0 : Option Nat)) "http://www.morningstar.co.uk/x".data =
      .ok (some 0) :=
  ⟨(get_url_domain_guard _ _).1 (by decide),
   (get_url_domain_guard (fun _ => (some 0 : Option Nat))
      "http://www.morningstar.co.uk/x".data).2 (by decide)⟩

/-- C10: a url with no network location (site-relative path, empty
string, …) always raises `DomainError` in `get_url`, because the empty
host does not end with the site domain; the error does not depend on the
fetcher. -/
theorem get_url_empty_netloc {α : Type} (fetch : Str → Option α) (url : Str)
    (h : urlsplitNetloc url = []) :
    get_url fetch url = .error (.domainError url) := by
  rw [get_url, h]
  exact if_neg (by decide)

/-- Witness for C10 at `"/uk/funds/x"` and at the empty string. -/
theorem get_url_empty_netloc_witness :
    get_url (fun _ => (some 0 : Option Nat)) "/uk/funds/x".data =
      .error (.domainError "/uk/funds/x".data) ∧
    get_url (fun _ => (some 0 : Option Nat)) [] = .error (.domainError []) :=
  ⟨get_url_empty_netloc _ _ rfl, get_url_empty_netloc _ _ rfl⟩

/-! ## Example rows and pages used by witnesses and counterexamples -/

/-- A header row of a fund/ETF table (dropped by `[1:]`). -/
def hdrFundRow : FundRow := ⟨"Name".data, "#".data, "ISIN".data⟩

/-- A fund data row with a site-relative link. -/
def fundRowA : FundRow := ⟨"Fund A".data, "/uk/funds/a".data, "GB00A".data⟩

/-- An ETF data row with a site-relative link. -/
def etfRowB : FundRow := ⟨"ETF B".data, "/uk/etf/b".data, "IE00B".data⟩

/-- A header row of the stock table. -/
def hdrStockRow : StockRow := ⟨"Name".data, "#".data, "Ticker".data, "Currency".data⟩

/-- A stock data row whose link target `"x"` is neither site-relative nor
fully qualified. -/
def stockRowAcme : StockRow := ⟨"Acme Corp".data, "x".data, "ACM".data, "USD".data⟩

/-- A page on which both the fund table and the ETF table are present and
have a data row. -/
def pageBothFamilies : Page := ⟨[], [[hdrFundRow, fundRowA]], [[hdrFundRow, etfRowB]]⟩

/-- A page with a single fund row and nothing else. -/
def fundOnlyPage : Page := ⟨[], [[hdrFundRow, fundRowA]], []⟩

/-- A page with a single ETF row and nothing else. -/
def etfOnlyPage : Page := ⟨[], [], [[hdrFundRow, etfRowB]]⟩

/-- A page with one stock row whose link target is `"x"`. -/
def relHrefPage : Page := ⟨[[hdrStockRow, stockRowAcme]], [], []⟩

/-- A page with three fund rows linking to `/a`, `/b`, `/c`. -/
def threeFundPage : Page :=
  ⟨[], [[hdrFundRow, ⟨"A".data, "/a".data, "IA".data⟩,
         ⟨"B".data, "/b".data, "IB".data⟩,
         ⟨"C".data, "/c".data, "IC".data⟩]], []⟩

/-- A fetcher that signals absence exactly on the detail page `/b` and
otherwise returns the url it was given. -/
def fetchSkipB : Str → Option Str :=
  fun u => if u = "http://www.morningstar.co.uk/b".data then none else some u

/-! ## Claims about `search` -/

/-- C2: when both the fund table and the ETF table are present and
non-empty, the fund family (checked first) contributes all non-stock
candidates and the ETF table contributes none — the loop `break`s after
the first family whose table is non-empty. -/
theorem search_first_family_wins (page : Page)
    (ft : List FundRow) (fts : List (List FundRow))
    (et : List FundRow) (ets : List (List FundRow))
    (hf : page.fundTables = ft :: fts) (hfr : ft.drop 1 ≠ [])
    (he : page.etfTables = et :: ets) (her : et.drop 1 ≠ []) :
    search page =
      stockCandidates page ++ (ft.drop 1).map (mkFundCandidate "fund".data) ∧
    ∀ c ∈ search page, c.type ≠ "etf".data := by
  have h1 : fundEtfCandidates page = (ft.drop 1).map (mkFundCandidate "fund".data) := by
    rw [show fundEtfCandidates page =
          familyLoop [("fund".data, page.fundTables), ("etf".data, page.etfTables)]
        from rfl, hf]
    rfl
  constructor
  · rw [search, h1]
  · intro c hc
    rw [search] at hc
    rcases List.mem_append.1 hc with h | h
    · rw [stockCandidates_type page c h]
      decide
    · rw [h1] at h
      rcases List.mem_map.1 h with ⟨r, _, rfl⟩
      show "fund".data ≠ "etf".data
      decide

/-- Witness for C2 on a concrete page with both families non-empty. -/
theorem search_first_family_wins_witness :
    search pageBothFamilies = stockCandidates pageBothFamilies ++
      ([hdrFundRow, fundRowA].drop 1).map (mkFundCandidate "fund".data) ∧
    ∀ c ∈ search pageBothFamilies, c.type ≠ "etf".data :=
  search_first_family_wins pageBothFamilies [hdrFundRow, fundRowA] []
    [hdrFundRow, etfRowB] [] rfl (by decide) rfl (by decide)

/-- C4 (code bug): the source's own docstring documents
`'type': (str) 'Fund'` for fund rows (and `e.g. Fund Stock` in
`get_data`), but the loop stores the lowercase loop variable, so fund and
ETF candidates carry `"fund"` / `"etf"`, not `"Fund"` / `"ETF"`; only
stock rows get the documented capitalized `"Stock"`. -/
theorem search_type_is_lowercase :
    (search fundOnlyPage).map Candidate.type = ["fund".data] ∧
    (search etfOnlyPage).map Candidate.type = ["etf".data] ∧
    (search relHrefPage).map Candidate.type = ["Stock".data] ∧
    "fund".data ≠ "Fund".data ∧ "etf".data ≠ "ETF".data := by
  refine ⟨rfl, rfl, rfl, by decide, by decide⟩

/-- C7: stock candidates always come first (in row order), the fund/ETF
part follows (in row order), and a page whose three tables are all empty
(absent, or with no rows past the header) yields `[]`, not an error. -/
theorem search_stock_first (page : Page) :
    search page = stockCandidates page ++ fundEtfCandidates page ∧
    (∀ c ∈ stockCandidates page, c.type = "Stock".data) ∧
    (∀ c ∈ fundEtfCandidates page, c.type = "fund".data ∨ c.type = "etf".data) ∧
    ((match page.stockTables with | [] => True | t :: _ => t.drop 1 = []) →
     (match page.fundTables with | [] => True | t :: _ => t.drop 1 = []) →
     (match page.etfTables with | [] => True | t :: _ => t.drop 1 = []) →
     search page = []) := by
  refine ⟨rfl, stockCandidates_type page, fundEtfCandidates_type page, ?_⟩
  intro hs hf he
  have h1 : stockCandidates page = [] := by
    cases hps : page.stockTables with
    | nil => simp [stockCandidates, hps]
    | cons t ts =>
      rw [hps] at hs
      simp at hs
      simp [stockCandidates, hps, hs]
  have h2 : fundEtfCandidates page = [] := by
    rw [show fundEtfCandidates page =
          familyLoop [("fund".data, page.fundTables), ("etf".data, page.etfTables)]
        from rfl]
    cases hpf : page.fundTables with
    | nil =>
      cases hpe : page.etfTables with
      | nil => rfl
      | cons t ts =>
        rw [hpe] at he
        simp at he
        simp [familyLoop, he]
    | cons t ts =>
      rw [hpf] at hf
      simp at hf
      simp [familyLoop, hf]
  rw [search, h1, h2]
  rfl

/-- Witness for C7: the all-empty page yields the empty sequence. -/
theorem search_stock_first_witness : search ⟨[], [], []⟩ = [] :=
  (search_stock_first ⟨[], [], []⟩).2.2.2 trivial trivial trivial

/-! ## Claims about candidate urls and `get_data` -/

/-- `fix_url` makes a site-relative target absolute and passes any other
target through unchanged. -/
lemma fix_url_cases (href : Str) :
    (List.isPrefixOf "/".data href = true → is_absolute (fix_url href) = true) ∧
    (List.isPrefixOf "/".data href = false → fix_url href = href) := by
  constructor
  · intro h
    cases href with
    | nil => simp [List.isPrefixOf] at h
    | cons a t =>
      have ha : a = '/' := by
        have h' : ('/' == a && List.isPrefixOf [] t) = true := h
        simp at h'
        exact h'.symm
      subst ha
      rw [fix_url, if_pos h]
      exact is_absolute_site_base t
  · intro h
    rw [fix_url, h]
    exact if_neg (by simp)

/-- C6 counterexample: a stock row whose link target is `"x"` (neither
site-relative nor fully qualified) yields a candidate whose url is not
absolute. -/
theorem search_url_not_absolute :
    (search relHrefPage).map (fun c => is_absolute c.url) = [false] := by decide

/-- C6 (amended): every candidate `search` emits is built from a
non-header row of one of the page's result tables, and its url field is
`fix_url` of that row's link target — absolute whenever the target is
site-relative (begins with `/`), and the target passed through unchanged
otherwise (so absolute only if the target already was). -/
theorem search_url_normalized (page : Page) (c : Candidate)
    (hc : c ∈ search page) :
    ∃ href,
      ((∃ t ts r, page.stockTables = t :: ts ∧ r ∈ t.drop 1 ∧
          c = mkStockCandidate r ∧ StockRow.href r = href) ∨
       (∃ ty t ts r,
          ((ty = "fund".data ∧ page.fundTables = t :: ts) ∨
           (ty = "etf".data ∧ page.etfTables = t :: ts)) ∧
          r ∈ t.drop 1 ∧ c = mkFundCandidate ty r ∧ FundRow.href r = href)) ∧
      c.url = fix_url href ∧
      (List.isPrefixOf "/".data href = true → is_absolute c.url = true) ∧
      (List.isPrefixOf "/".data href = false → c.url = href) := by
  rw [search] at hc
  rcases List.mem_append.1 hc with h | h
  · unfold stockCandidates at h
    split at h
    · simp at h
    · next t ts heq =>
      rcases List.mem_map.1 h with ⟨r, hr, rfl⟩
      exact ⟨r.href, Or.inl ⟨t, ts, r, heq, hr, rfl, rfl⟩, rfl,
        (fix_url_cases r.href).1, (fix_url_cases r.href).2⟩
  · rcases familyLoop_mem _ c h with ⟨ty, t, ts, r, hmem, hr, rfl⟩
    have hcase : (ty = "fund".data ∧ page.fundTables = t :: ts) ∨
        (ty = "etf".data ∧ page.etfTables = t :: ts) := by
      simp only [List.mem_cons, List.not_mem_nil, or_false, Prod.mk.injEq] at hmem
      rcases hmem with ⟨h1, h2⟩ | ⟨h1, h2⟩
      · exact Or.inl ⟨h1, h2.symm⟩
      · exact Or.inr ⟨h1, h2.symm⟩
    exact ⟨r.href, Or.inr ⟨ty, t, ts, r, hcase, hr, rfl, rfl⟩, rfl,
      (fix_url_cases r.href).1, (fix_url_cases r.href).2⟩

/-- Witness for C6 (amended) at the concrete page `relHrefPage`, whose
single stock row has the link target `"x"`. -/
theorem search_url_normalized_witness :
    ∃ href,
      ((∃ t ts r, relHrefPage.stockTables = t :: ts ∧ r ∈ t.drop 1 ∧
          mkStockCandidate stockRowAcme = mkStockCandidate r ∧ StockRow.href r = href) ∨
       (∃ ty t ts r,
          ((ty = "fund".data ∧ relHrefPage.fundTables = t :: ts) ∨
           (ty = "etf".data ∧ relHrefPage.etfTables = t :: ts)) ∧
          r ∈ t.drop 1 ∧ mkStockCandidate stockRowAcme = mkFundCandidate ty r ∧
          FundRow.href r = href)) ∧
      (mkStockCandidate stockRowAcme).url = fix_url href ∧
      (List.isPrefixOf "/".data href = true →
        is_absolute (mkStockCandidate stockRowAcme).url = true) ∧
      (List.isPrefixOf "/".data href = false →
        (mkStockCandidate stockRowAcme).url = href) :=
  search_url_normalized relHrefPage (mkStockCandidate stockRowAcme) (by decide)

/-- When every candidate's url is on-site, the `get_data` loop returns,
in order, exactly the fetched records of the candidates whose fetch
yields one. -/
lemma get_data_loop_ok {α : Type} (fetch : Str → Option α) :
    ∀ l : List Candidate,
      (∀ c ∈ l, List.isSuffixOf SITE (urlsplitNetloc c.url) = true) →
      get_data_loop fetch l = .ok (l.filterMap fun c => fetch c.url) := by
  intro l
  induction l with
  | nil => intro _; rfl
  | cons item rest ih =>
    intro h
    have h1 : get_url fetch item.url = .ok (fetch item.url) := by
      rw [get_url, if_pos (h item (List.mem_cons_self _ _))]
    rw [get_data_loop, h1, ih (fun c hc => h c (List.mem_cons_of_mem _ hc))]
    cases hfi : fetch item.url <;> simp [List.filterMap_cons, hfi]

/-- C3: `get_data` returns, in original candidate order, exactly the
resolved records of the candidates whose resolution yields one; a
candidate resolving to absence is skipped silently and never aborts the
rest.  (The hypothesis restricts to candidates whose urls are on-site:
an off-site url is a `DomainError`, not absence.) -/
theorem get_data_skips_absent {α : Type} (fetch : Str → Option α) (page : Page)
    (h : ∀ c ∈ search page, List.isSuffixOf SITE (urlsplitNetloc c.url) = true) :
    get_data fetch page = .ok ((search page).filterMap fun c => fetch c.url) :=
  get_data_loop_ok fetch (search page) h

/-- Witness for C3: three candidates whose middle detail page yields
absence produce exactly the first and third records, in order. -/
theorem get_data_skips_absent_witness :
    get_data fetchSkipB threeFundPage =
      .ok ["http://www.morningstar.co.uk/a".data,
           "http://www.morningstar.co.uk/c".data] := by
  rw [get_data_skips_absent fetchSkipB threeFundPage (by decide)]
  rfl

/-! ## The date parser `dmy_2_date`

`dmy_2_date(value)` is `datetime.strptime(value, '%d/%m/%Y').date()`
(source lines 19–21).  CPython's `_strptime` turns the format into the
regex `(?P<d>3[0-1]|[1-2]\d|0[1-9]|[1-9]| [1-9])/(?P<m>1[0-2]|0[1-9]|[1-9])/(?P<Y>\d\d\d\d)`,
matches it at the start of the input with backtracking, raises
`ValueError` (the spec's `FormatError`) when there is no match or when
the match does not consume the whole input, and otherwise builds
`datetime(year, month, day)`, which raises `ValueError` unless
`1 ≤ year` and the day exists in that month.  Each regex alternation is
modelled as the ordered list of its alternatives' matches, consumed by
the first-success combinator `tryEach`; requiring full consumption inside
the backtracking (rather than after it, as CPython does) is equivalent
for this regex because whenever two alternatives of one group match the
same input, the earlier one consumes at least as many characters.
Only ASCII digits are modelled. -/

/-- The numeric value of an ASCII digit character. -/
def digitVal (c : Char) : Nat := c.toNat - 48

/-- Day alternative `3[0-1]`. -/
def dayAlt31 : Str → List (Nat × Str)
  | '3' :: c :: r => if c = '0' || c = '1' then [(30 + digitVal c, r)] else []
  | _ => []

/-- Day alternative `[1-2]\d`. -/
def dayAltTens : Str → List (Nat × Str)
  | a :: c :: r =>
    if (a = '1' || a = '2') && c.isDigit then [(10 * digitVal a + digitVal c, r)] else []
  | _ => []

/-- Day alternative `0[1-9]`. -/
def dayAltZero : Str → List (Nat × Str)
  | '0' :: c :: r => if '1' ≤ c && c ≤ '9' then [(digitVal c, r)] else []
  | _ => []

/-- Day alternative `[1-9]`. -/
def dayAltSingle : Str → List (Nat × Str)
  | c :: r => if '1' ≤ c && c ≤ '9' then [(digitVal c, r)] else []
  | _ => []

/-- Day alternative `· [1-9]` (space-padded single digit). -/
def dayAltSpace : Str → List (Nat × Str)
  | ' ' :: c :: r => if '1' ≤ c && c ≤ '9' then [(digitVal c, r)] else []
  | _ => []

/-- Matches of the day group `3[0-1]|[1-2]\d|0[1-9]|[1-9]| [1-9]` at the
head of `s`, in alternation order, as (value, rest) pairs. -/
def dayAlts (s : Str) : List (Nat × Str) :=
  dayAlt31 s ++ dayAltTens s ++ dayAltZero s ++ dayAltSingle s ++ dayAltSpace s

/-- Month alternative `1[0-2]`. -/
def monthAltTens : Str → List (Nat × Str)
  | '1' :: c :: r =>
    if c = '0' || c = '1' || c = '2' then [(10 + digitVal c, r)] else []
  | _ => []

/-- Month alternative `0[1-9]`. -/
def monthAltZero : Str → List (Nat × Str)
  | '0' :: c :: r => if '1' ≤ c && c ≤ '9' then [(digitVal c, r)] else []
  | _ => []

/-- Month alternative `[1-9]`. -/
def monthAltSingle : Str → List (Nat × Str)
  | c :: r => if '1' ≤ c && c ≤ '9' then [(digitVal c, r)] else []
  | _ => []

/-- Matches of the month group `1[0-2]|0[1-9]|[1-9]` at the head of `s`,
in alternation order. -/
def monthAlts (s : Str) : List (Nat × Str) :=
  monthAltTens s ++ monthAltZero s ++ monthAltSingle s

/-- The year group `\d\d\d\d`: exactly four digits. -/
def year4 (s : Str) : Option (Nat × Str) :=
  match s with
  | a :: b :: c :: d :: r =>
    if a.isDigit && b.isDigit && c.isDigit && d.isDigit
    then some (1000 * digitVal a + 100 * digitVal b + 10 * digitVal c + digitVal d, r)
    else none
  | _ => none

/-- First-success combinator: try the alternatives in order, return the
first continuation that succeeds (regex backtracking). -/
def tryEach {α β : Type} : List α → (α → Option β) → Option β
  | [], _ => none
  | a :: l, k =>
    match k a with
    | some b => some b
    | none => tryEach l k

/-- Match the whole format regex `d '/' m '/' Y` against all of `s`,
returning `(day, month, year)`. -/
def matchDMY (s : Str) : Option (Nat × Nat × Nat) :=
  tryEach (dayAlts s) fun p =>
    match p.2 with
    | '/' :: r2 =>
      tryEach (monthAlts r2) fun q =>
        match q.2 with
        | '/' :: r4 =>
          match year4 r4 with
          | some (y, r5) => if r5 = [] then some (p.1, q.1, y) else none
          | none => none
        | _ => none
    | _ => none

/-- A Python `datetime.date` value. -/
structure PyDate where
  year : Nat
  month : Nat
  day : Nat
deriving DecidableEq, Repr

/-- The `ValueError` that `strptime`/`datetime` raise on malformed or
impossible dates; the spec calls it `FormatError`. -/
inductive FormatError where
  | valueError
deriving DecidableEq, Repr

/-- Gregorian leap-year rule, as `datetime` uses it. -/
def is_leap (y : Nat) : Bool := y % 4 = 0 && (y % 100 ≠ 0 || y % 400 = 0)

/-- Days in a month, as `datetime` validates them. -/
def days_in_month (y m : Nat) : Nat :=
  if m = 2 then (if is_leap y then 29 else 28)
  else if m = 4 || m = 6 || m = 9 || m = 11 then 30 else 31

/-- `dmy_2_date(value)`: match the fixed `%d/%m/%Y` regex against all of
`value`, then build the date, validating year range (`datetime.MINYEAR =
1`, `MAXYEAR = 9999`), month range and day-of-month. -/
def dmy_2_date (s : Str) : Except FormatError PyDate :=
  match matchDMY s with
  | none => .error .valueError
  | some (d, m, y) =>
    if 1 ≤ y && y ≤ 9999 && 1 ≤ m && m ≤ 12 && 1 ≤ d && d ≤ days_in_month y m
    then .ok ⟨y, m, d⟩ else .error .valueError

/-! ## Characterizing the accepted date texts -/

/-- Value of a string of ASCII digit characters, most significant first. -/
def natOfDigits (t : Str) : Nat := t.foldl (fun a c => 10 * a + digitVal c) 0

/-- The day texts the format accepts with value `d` (for `1 ≤ d ≤ 31`):
a one- or two-digit string with value `d` (two-digit forms zero-padded),
or a space followed by one digit. -/
def DayText (t : Str) (d : Nat) : Prop :=
  (t.all Char.isDigit = true ∧ (t.length = 1 ∨ t.length = 2) ∧ natOfDigits t = d) ∨
  (∃ c, t = [' ', c] ∧ c.isDigit = true ∧ digitVal c = d)

/-- The month texts the format accepts with value `m` (for `1 ≤ m ≤ 12`):
a one- or two-digit string with value `m`. -/
def MonthText (t : Str) (m : Nat) : Prop :=
  t.all Char.isDigit = true ∧ (t.length = 1 ∨ t.length = 2) ∧ natOfDigits t = m

/-- The year texts the format accepts with value `y`: exactly four
digits. -/
def YearText (t : Str) (y : Nat) : Prop :=
  t.all Char.isDigit = true ∧ t.length = 4 ∧ natOfDigits t = y

/-- `datetime(year, month, day)` succeeds exactly under these bounds. -/
def PyDateOK (y m d : Nat) : Prop :=
  1 ≤ y ∧ y ≤ 9999 ∧ 1 ≤ m ∧ m ≤ 12 ∧ 1 ≤ d ∧ d ≤ days_in_month y m

/-- Char order agrees with code-point order. -/
lemma charLe_iff {a b : Char} : a ≤ b ↔ a.toNat ≤ b.toNat := by
  show a.val ≤ b.val ↔ _
  rw [UInt32.le_def, BitVec.le_def]
  exact Iff.rfl

/-- Characters with equal code points are equal. -/
lemma charEq_of_toNat {a b : Char} (h : a.toNat = b.toNat) : a = b :=
  Char.eq_of_val_eq (UInt32.ext h)

/-- `Char.isDigit` in terms of code points. -/
lemma isDigit_iff {c : Char} : c.isDigit = true ↔ 48 ≤ c.toNat ∧ c.toNat ≤ 57 := by
  show (c.val ≥ 48 && c.val ≤ 57) = true ↔ _
  rw [Bool.and_eq_true, decide_eq_true_eq, decide_eq_true_eq]
  constructor
  · rintro ⟨h1, h2⟩
    exact ⟨(charLe_iff (a := ⟨48, by decide⟩) (b := c)).1 h1,
           (charLe_iff (a := c) (b := ⟨57, by decide⟩)).1 h2⟩
  · rintro ⟨h1, h2⟩
    exact ⟨(charLe_iff (a := ⟨48, by decide⟩) (b := c)).2 h1,
           (charLe_iff (a := c) (b := ⟨57, by decide⟩)).2 h2⟩

/-- A character in `[1-9]` is a digit with value between 1 and 9, and
conversely. -/
lemma range19_iff {c : Char} :
    ('1' ≤ c && c ≤ '9') = true ↔
      c.isDigit = true ∧ 1 ≤ digitVal c ∧ digitVal c ≤ 9 := by
  rw [Bool.and_eq_true, decide_eq_true_eq, decide_eq_true_eq, charLe_iff, charLe_iff]
  show 49 ≤ c.toNat ∧ c.toNat ≤ 57 ↔ _
  rw [isDigit_iff]
  unfold digitVal
  omega

lemma natOfDigits_one (a : Char) : natOfDigits [a] = digitVal a := by
  simp [natOfDigits]

lemma natOfDigits_two (a b : Char) :
    natOfDigits [a, b] = 10 * digitVal a + digitVal b := by
  simp [natOfDigits]

lemma natOfDigits_four (a b c d : Char) :
    natOfDigits [a, b, c, d] =
      1000 * digitVal a + 100 * digitVal b + 10 * digitVal c + digitVal d := by
  simp [natOfDigits]
  ring

/-- A successful `tryEach` comes from some listed alternative. -/
lemma tryEach_eq_some {α β : Type} {l : List α} {k : α → Option β} {b : β}
    (h : tryEach l k = some b) : ∃ a ∈ l, k a = some b := by
  induction l with
  | nil => simp [tryEach] at h
  | cons x xs ih =>
    rw [tryEach] at h
    rcases hx : k x with _ | v
    · rw [hx] at h
      rcases ih h with ⟨a, ha, hk⟩
      exact ⟨a, List.mem_cons_of_mem _ ha, hk⟩
    · rw [hx] at h
      injection h with hv
      exact ⟨x, List.mem_cons_self _ _, hv ▸ hx⟩

/-- Soundness of the day group: a match consumes an accepted day text. -/
lemma dayAlts_sound {s r : Str} {d : Nat} (h : (d, r) ∈ dayAlts s) :
    ∃ td, s = td ++ r ∧ DayText td d := by
  unfold dayAlts at h
  simp only [List.mem_append] at h
  rcases h with ((((h | h) | h) | h) | h)
  · unfold dayAlt31 at h
    split at h
    · split at h
      · next c r2 hg =>
        simp only [List.mem_singleton, Prod.mk.injEq] at h
        obtain ⟨rfl, rfl⟩ := h
        simp only [Bool.or_eq_true, decide_eq_true_eq] at hg
        rcases hg with rfl | rfl
        · exact ⟨['3', '0'], rfl, Or.inl ⟨by decide, Or.inr rfl, by decide⟩⟩
        · exact ⟨['3', '1'], rfl, Or.inl ⟨by decide, Or.inr rfl, by decide⟩⟩
      · simp at h
    · simp at h
  · unfold dayAltTens at h
    split at h
    · split at h
      · next a c r2 hg =>
        simp only [List.mem_singleton, Prod.mk.injEq] at h
        obtain ⟨rfl, rfl⟩ := h
        rw [Bool.and_eq_true, Bool.or_eq_true, decide_eq_true_eq, decide_eq_true_eq] at hg
        obtain ⟨ha, hc⟩ := hg
        refine ⟨[a, c], rfl, Or.inl ⟨?_, Or.inr rfl, by rw [natOfDigits_two]⟩⟩
        rcases ha with rfl | rfl <;> simp [hc]
      · simp at h
    · simp at h
  · unfold dayAltZero at h
    split at h
    · split at h
      · next c r2 hg =>
        simp only [List.mem_singleton, Prod.mk.injEq] at h
        obtain ⟨rfl, rfl⟩ := h
        obtain ⟨hdig, h1, h9⟩ := range19_iff.1 hg
        refine ⟨['0', c], rfl, Or.inl ⟨by simp [hdig], Or.inr rfl, ?_⟩⟩
        rw [natOfDigits_two]
        show 10 * digitVal '0' + digitVal c = digitVal c
        have h0 : digitVal '0' = 0 := by decide
        rw [h0]
        omega
      · simp at h
    · simp at h
  · unfold dayAltSingle at h
    split at h
    · split at h
      · next c r2 hg =>
        simp only [List.mem_singleton, Prod.mk.injEq] at h
        obtain ⟨rfl, rfl⟩ := h
        obtain ⟨hdig, h1, h9⟩ := range19_iff.1 hg
        exact ⟨[c], rfl, Or.inl ⟨by simp [hdig], Or.inl rfl, natOfDigits_one c⟩⟩
      · simp at h
    · simp at h
  · unfold dayAltSpace at h
    split at h
    · split at h
      · next c r2 hg =>
        simp only [List.mem_singleton, Prod.mk.injEq] at h
        obtain ⟨rfl, rfl⟩ := h
        obtain ⟨hdig, h1, h9⟩ := range19_iff.1 hg
        exact ⟨[' ', c], rfl, Or.inr ⟨c, rfl, hdig, rfl⟩⟩
      · simp at h
    · simp at h

/-- Soundness of the month group. -/
lemma monthAlts_sound {s r : Str} {m : Nat} (h : (m, r) ∈ monthAlts s) :
    ∃ tm, s = tm ++ r ∧ MonthText tm m := by
  unfold monthAlts at h
  simp only [List.mem_append] at h
  rcases h with ((h | h) | h)
  · unfold monthAltTens at h
    split at h
    · split at h
      · next c r2 hg =>
        simp only [List.mem_singleton, Prod.mk.injEq] at h
        obtain ⟨rfl, rfl⟩ := h
        simp only [Bool.or_eq_true, decide_eq_true_eq] at hg
        rcases hg with (rfl | rfl) | rfl
        · exact ⟨['1', '0'], rfl, by decide, Or.inr rfl, by decide⟩
        · exact ⟨['1', '1'], rfl, by decide, Or.inr rfl, by decide⟩
        · exact ⟨['1', '2'], rfl, by decide, Or.inr rfl, by decide⟩
      · simp at h
    · simp at h
  · unfold monthAltZero at h
    split at h
    · split at h
      · next c r2 hg =>
        simp only [List.mem_singleton, Prod.mk.injEq] at h
        obtain ⟨rfl, rfl⟩ := h
        obtain ⟨hdig, h1, h9⟩ := range19_iff.1 hg
        refine ⟨['0', c], rfl, by simp [hdig], Or.inr rfl, ?_⟩
        rw [natOfDigits_two]
        show 10 * digitVal '0' + digitVal c = digitVal c
        have h0 : digitVal '0' = 0 := by decide
        rw [h0]
        omega
      · simp at h
    · simp at h
  · unfold monthAltSingle at h
    split at h
    · split at h
      · next c r2 hg =>
        simp only [List.mem_singleton, Prod.mk.injEq] at h
        obtain ⟨rfl, rfl⟩ := h
        obtain ⟨hdig, h1, h9⟩ := range19_iff.1 hg
        exact ⟨[c], rfl, by simp [hdig], Or.inl rfl, natOfDigits_one c⟩
      · simp at h
    · simp at h

/-- Soundness of the year group. -/
lemma year4_sound {s r : Str} {y : Nat} (h : year4 s = some (y, r)) :
    ∃ ty, s = ty ++ r ∧ YearText ty y := by
  unfold year4 at h
  split at h
  · next a b c2 d2 r2 =>
    split at h
    · next hg =>
      simp only [Option.some.injEq, Prod.mk.injEq] at h
      obtain ⟨h1, rfl⟩ := h
      simp only [Bool.and_eq_true] at hg
      obtain ⟨⟨⟨ha, hb⟩, hc⟩, hd⟩ := hg
      refine ⟨[a, b, c2, d2], rfl, ?_, rfl, ?_⟩
      · simp [ha, hb, hc, hd]
      · rw [natOfDigits_four]
        exact h1
    · simp at h
  · simp at h

/-! ## Completeness of the groups on accepted texts -/

lemma digitVal_le9 {b : Char} (h : b.isDigit = true) : digitVal b ≤ 9 := by
  obtain ⟨h1, h2⟩ := isDigit_iff.1 h
  unfold digitVal
  omega

/-- A digit with value at most 1 is `'0'` or `'1'`. -/
lemma digit_cases01 {b : Char} (hb : b.isDigit = true) (h : digitVal b ≤ 1) :
    b = '0' ∨ b = '1' := by
  obtain ⟨h1, h2⟩ := isDigit_iff.1 hb
  unfold digitVal at h
  have : b.toNat = 48 ∨ b.toNat = 49 := by omega
  rcases this with h' | h'
  · exact Or.inl (charEq_of_toNat (by rw [h']; rfl))
  · exact Or.inr (charEq_of_toNat (by rw [h']; rfl))

/-- A digit with value at most 2 is `'0'`, `'1'` or `'2'`. -/
lemma digit_cases012 {b : Char} (hb : b.isDigit = true) (h : digitVal b ≤ 2) :
    b = '0' ∨ b = '1' ∨ b = '2' := by
  obtain ⟨h1, h2⟩ := isDigit_iff.1 hb
  unfold digitVal at h
  have : b.toNat = 48 ∨ b.toNat = 49 ∨ b.toNat = 50 := by omega
  rcases this with h' | h' | h'
  · exact Or.inl (charEq_of_toNat (by rw [h']; rfl))
  · exact Or.inr (Or.inl (charEq_of_toNat (by rw [h']; rfl)))
  · exact Or.inr (Or.inr (charEq_of_toNat (by rw [h']; rfl)))

lemma dayAlt31_slash (b : Char) (r : Str) : dayAlt31 (b :: '/' :: r) = [] := by
  unfold dayAlt31
  split
  · next heq =>
      simp only [List.cons.injEq] at heq
      obtain ⟨rfl, rfl, rfl⟩ := heq
      rfl
  · rfl

lemma dayAltTens_slash (b : Char) (r : Str) : dayAltTens (b :: '/' :: r) = [] := by
  simp [dayAltTens]

lemma dayAltZero_slash (b : Char) (r : Str) : dayAltZero (b :: '/' :: r) = [] := by
  unfold dayAltZero
  split
  · next heq =>
      simp only [List.cons.injEq] at heq
      obtain ⟨rfl, rfl, rfl⟩ := heq
      rfl
  · rfl

lemma dayAltSpace_slash (b : Char) (r : Str) : dayAltSpace (b :: '/' :: r) = [] := by
  unfold dayAltSpace
  split
  · next heq =>
      simp only [List.cons.injEq] at heq
      obtain ⟨rfl, rfl, rfl⟩ := heq
      rfl
  · rfl

lemma dayAlt31_notthree {a : Char} (h : a ≠ '3') (b : Char) (r : Str) :
    dayAlt31 (a :: b :: r) = [] := by
  unfold dayAlt31
  split
  · next heq => exact absurd (by injection heq) h
  · rfl

lemma dayAltTens_pos {a b : Char} (ha : a = '1' ∨ a = '2') (hb : b.isDigit = true)
    (r : Str) : dayAltTens (a :: b :: r) = [(10 * digitVal a + digitVal b, r)] := by
  have hg : ((a = '1' || a = '2') && b.isDigit) = true := by
    rcases ha with rfl | rfl <;> simp [hb]
  show (if ((a = '1' || a = '2') && b.isDigit) = true
        then [(10 * digitVal a + digitVal b, r)] else []) = _
  rw [if_pos hg]

lemma dayAltTens_no {a : Char} (h1 : a ≠ '1') (h2 : a ≠ '2') (b : Char) (r : Str) :
    dayAltTens (a :: b :: r) = [] := by
  show (if ((a = '1' || a = '2') && b.isDigit) = true
        then [(10 * digitVal a + digitVal b, r)] else []) = _
  rw [if_neg]
  simp [h1, h2]

lemma dayAltZero_notzero {a : Char} (h : a ≠ '0') (b : Char) (r : Str) :
    dayAltZero (a :: b :: r) = [] := by
  unfold dayAltZero
  split
  · next heq => exact absurd (by injection heq) h
  · rfl

lemma dayAltZero_pos {b : Char} (hb : ('1' ≤ b && b ≤ '9') = true) (r : Str) :
    dayAltZero ('0' :: b :: r) = [(digitVal b, r)] := by
  show (if ('1' ≤ b && b ≤ '9') = true then [(digitVal b, r)] else []) = _
  rw [if_pos hb]

lemma dayAltSingle_pos {b : Char} (hb : ('1' ≤ b && b ≤ '9') = true) (r : Str) :
    dayAltSingle (b :: r) = [(digitVal b, r)] := by
  show (if ('1' ≤ b && b ≤ '9') = true then [(digitVal b, r)] else []) = _
  rw [if_pos hb]

lemma dayAltSpace_pos {b : Char} (hb : ('1' ≤ b && b ≤ '9') = true) (r : Str) :
    dayAltSpace (' ' :: b :: r) = [(digitVal b, r)] := by
  show (if ('1' ≤ b && b ≤ '9') = true then [(digitVal b, r)] else []) = _
  rw [if_pos hb]

lemma dayAlt31_pos {b : Char} (hb : (b = '0' || b = '1') = true) (r : Str) :
    dayAlt31 ('3' :: b :: r) = [(30 + digitVal b, r)] := by
  show (if (b = '0' || b = '1') = true then [(30 + digitVal b, r)] else []) = _
  rw [if_pos hb]

lemma monthAltTens_slash (b : Char) (r : Str) : monthAltTens (b :: '/' :: r) = [] := by
  unfold monthAltTens
  split
  · next heq =>
      simp only [List.cons.injEq] at heq
      obtain ⟨rfl, rfl, rfl⟩ := heq
      rfl
  · rfl

lemma monthAltZero_slash (b : Char) (r : Str) : monthAltZero (b :: '/' :: r) = [] := by
  unfold monthAltZero
  split
  · next heq =>
      simp only [List.cons.injEq] at heq
      obtain ⟨rfl, rfl, rfl⟩ := heq
      rfl
  · rfl

lemma monthAltTens_pos {b : Char} (hb : (b = '0' || b = '1' || b = '2') = true)
    (r : Str) : monthAltTens ('1' :: b :: r) = [(10 + digitVal b, r)] := by
  show (if (b = '0' || b = '1' || b = '2') = true then [(10 + digitVal b, r)] else []) = _
  rw [if_pos hb]

lemma monthAltTens_notone {a : Char} (h : a ≠ '1') (b : Char) (r : Str) :
    monthAltTens (a :: b :: r) = [] := by
  unfold monthAltTens
  split
  · next heq => exact absurd (by injection heq) h
  · rfl

lemma monthAltZero_pos {b : Char} (hb : ('1' ≤ b && b ≤ '9') = true) (r : Str) :
    monthAltZero ('0' :: b :: r) = [(digitVal b, r)] := by
  show (if ('1' ≤ b && b ≤ '9') = true then [(digitVal b, r)] else []) = _
  rw [if_pos hb]

lemma monthAltZero_notzero {a : Char} (h : a ≠ '0') (b : Char) (r : Str) :
    monthAltZero (a :: b :: r) = [] := by
  unfold monthAltZero
  split
  · next heq => exact absurd (by injection heq) h
  · rfl

lemma monthAltSingle_pos {b : Char} (hb : ('1' ≤ b && b ≤ '9') = true) (r : Str) :
    monthAltSingle (b :: r) = [(digitVal b, r)] := by
  show (if ('1' ≤ b && b ≤ '9') = true then [(digitVal b, r)] else []) = _
  rw [if_pos hb]

/-- On an accepted day text followed by `/`, the day group's first match
is exactly the day value, leaving the `/` for the format. -/
lemma dayAlts_first {td : Str} {d : Nat} (hd : DayText td d) (h1 : 1 ≤ d)
    (h31 : d ≤ 31) (rest : Str) :
    (dayAlts (td ++ '/' :: rest)).head? = some (d, '/' :: rest) := by
  unfold dayAlts
  rcases hd with ⟨hdig, hlen, hval⟩ | ⟨c, rfl, hdig, hval⟩
  · rcases hlen with h | h
    · obtain ⟨b, rfl⟩ : ∃ b, td = [b] := by
        cases td with
        | nil => simp at h
        | cons x xs =>
          cases xs with
          | nil => exact ⟨x, rfl⟩
          | cons y ys => simp at h
      rw [natOfDigits_one] at hval
      have hdigb : b.isDigit = true := by simpa using hdig
      have hb : ('1' ≤ b && b ≤ '9') = true :=
        range19_iff.2 ⟨hdigb, by omega, digitVal_le9 hdigb⟩
      show (dayAlt31 (b :: '/' :: rest) ++ dayAltTens (b :: '/' :: rest) ++
        dayAltZero (b :: '/' :: rest) ++ dayAltSingle (b :: '/' :: rest) ++
        dayAltSpace (b :: '/' :: rest)).head? = _
      rw [dayAlt31_slash, dayAltTens_slash, dayAltZero_slash, dayAltSingle_pos hb,
        hval]
      simp
    · obtain ⟨a, b, rfl⟩ : ∃ a b, td = [a, b] := by
        cases td with
        | nil => simp at h
        | cons x xs =>
          cases xs with
          | nil => simp at h
          | cons y ys =>
            cases ys with
            | nil => exact ⟨x, y, rfl⟩
            | cons z zs => simp at h
      rw [natOfDigits_two] at hval
      have hda : a.isDigit = true := by
        have := hdig
        simp [List.all_cons] at this
        exact this.1
      have hdb : b.isDigit = true := by
        have := hdig
        simp [List.all_cons] at this
        exact this.2
      show (dayAlt31 (a :: b :: '/' :: rest) ++ dayAltTens (a :: b :: '/' :: rest) ++
        dayAltZero (a :: b :: '/' :: rest) ++ dayAltSingle (a :: b :: '/' :: rest) ++
        dayAltSpace (a :: b :: '/' :: rest)).head? = _
      by_cases ha3 : a = '3'
      · subst ha3
        have hb01 : b = '0' ∨ b = '1' := by
          apply digit_cases01 hdb
          have h3 : digitVal '3' = 3 := by decide
          rw [h3] at hval
          omega
        have hb01' : (b = '0' || b = '1') = true := by
          rcases hb01 with rfl | rfl <;> decide
        rw [dayAlt31_pos hb01']
        have h3 : digitVal '3' = 3 := by decide
        rw [h3] at hval
        have : 30 + digitVal b = d := by omega
        rw [this]
        simp
      · by_cases ha12 : a = '1' ∨ a = '2'
        · rw [dayAlt31_notthree ha3, dayAltTens_pos ha12 hdb, hval]
          simp
        · push_neg at ha12
          by_cases ha0 : a = '0'
          · subst ha0
            have h0 : digitVal '0' = 0 := by decide
            rw [h0] at hval
            have hb19 : ('1' ≤ b && b ≤ '9') = true :=
              range19_iff.2 ⟨hdb, by omega, digitVal_le9 hdb⟩
            rw [dayAlt31_notthree (by decide), dayAltTens_no (by decide) (by decide),
              dayAltZero_pos hb19]
            have : digitVal b = d := by omega
            rw [this]
            simp
          · exfalso
            obtain ⟨h48, h57⟩ := isDigit_iff.1 hda
            have hne0 : a.toNat ≠ 48 := fun hh => ha0 (charEq_of_toNat (by rw [hh]; rfl))
            have hne1 : a.toNat ≠ 49 := fun hh => ha12.1 (charEq_of_toNat (by rw [hh]; rfl))
            have hne2 : a.toNat ≠ 50 := fun hh => ha12.2 (charEq_of_toNat (by rw [hh]; rfl))
            have hne3 : a.toNat ≠ 51 := fun hh => ha3 (charEq_of_toNat (by rw [hh]; rfl))
            have : 4 ≤ digitVal a := by unfold digitVal; omega
            have hbd : digitVal b ≤ 9 := by
              obtain ⟨h48b, h57b⟩ := isDigit_iff.1 hdb
              unfold digitVal
              omega
            omega
  · -- space-padded single digit
    have hb : ('1' ≤ c && c ≤ '9') = true :=
      range19_iff.2 ⟨hdig, by omega, digitVal_le9 hdig⟩
    show (dayAlt31 (' ' :: c :: '/' :: rest) ++ dayAltTens (' ' :: c :: '/' :: rest) ++
      dayAltZero (' ' :: c :: '/' :: rest) ++ dayAltSingle (' ' :: c :: '/' :: rest) ++
      dayAltSpace (' ' :: c :: '/' :: rest)).head? = _
    rw [dayAlt31_notthree (by decide), dayAltTens_no (by decide) (by decide),
      dayAltZero_notzero (by decide), dayAltSpace_pos hb, hval]
    have hsp : dayAltSingle (' ' :: c :: '/' :: rest) = [] := by
      show (if ('1' ≤ ' ' && ' ' ≤ '9') = true then [(digitVal ' ', c :: '/' :: rest)] else []) = _
      rfl
    rw [hsp]
    simp

/-- On an accepted month text followed by `/`, the month group's first
match is exactly the month value. -/
lemma monthAlts_first {tm : Str} {m : Nat} (hm : MonthText tm m) (h1 : 1 ≤ m)
    (h12 : m ≤ 12) (rest : Str) :
    (monthAlts (tm ++ '/' :: rest)).head? = some (m, '/' :: rest) := by
  unfold monthAlts
  obtain ⟨hdig, hlen, hval⟩ := hm
  rcases hlen with h | h
  · obtain ⟨b, rfl⟩ : ∃ b, tm = [b] := by
      cases tm with
      | nil => simp at h
      | cons x xs =>
        cases xs with
        | nil => exact ⟨x, rfl⟩
        | cons y ys => simp at h
    rw [natOfDigits_one] at hval
    have hdigb : b.isDigit = true := by simpa using hdig
    have hb : ('1' ≤ b && b ≤ '9') = true :=
      range19_iff.2 ⟨hdigb, by omega, digitVal_le9 hdigb⟩
    show (monthAltTens (b :: '/' :: rest) ++ monthAltZero (b :: '/' :: rest) ++
      monthAltSingle (b :: '/' :: rest)).head? = _
    rw [monthAltTens_slash, monthAltZero_slash, monthAltSingle_pos hb, hval]
    simp
  · obtain ⟨a, b, rfl⟩ : ∃ a b, tm = [a, b] := by
      cases tm with
      | nil => simp at h
      | cons x xs =>
        cases xs with
        | nil => simp at h
        | cons y ys =>
          cases ys with
          | nil => exact ⟨x, y, rfl⟩
          | cons z zs => simp at h
    rw [natOfDigits_two] at hval
    have hda : a.isDigit = true := by
      have := hdig
      simp [List.all_cons] at this
      exact this.1
    have hdb : b.isDigit = true := by
      have := hdig
      simp [List.all_cons] at this
      exact this.2
    show (monthAltTens (a :: b :: '/' :: rest) ++ monthAltZero (a :: b :: '/' :: rest) ++
      monthAltSingle (a :: b :: '/' :: rest)).head? = _
    by_cases ha1 : a = '1'
    · subst ha1
      have h1d : digitVal '1' = 1 := by decide
      rw [h1d] at hval
      have hb012 : b = '0' ∨ b = '1' ∨ b = '2' := by
        apply digit_cases012 hdb
        omega
      have hb012' : (b = '0' || b = '1' || b = '2') = true := by
        rcases hb012 with rfl | rfl | rfl <;> decide
      rw [monthAltTens_pos hb012']
      have : 10 + digitVal b = m := by omega
      rw [this]
      simp
    · by_cases ha0 : a = '0'
      · subst ha0
        have h0 : digitVal '0' = 0 := by decide
        rw [h0] at hval
        have hb19 : ('1' ≤ b && b ≤ '9') = true :=
          range19_iff.2 ⟨hdb, by omega, digitVal_le9 hdb⟩
        rw [monthAltTens_notone (by decide), monthAltZero_pos hb19]
        have : digitVal b = m := by omega
        rw [this]
        simp
      · exfalso
        obtain ⟨h48, h57⟩ := isDigit_iff.1 hda
        have hne0 : a.toNat ≠ 48 := fun hh => ha0 (charEq_of_toNat (by rw [hh]; rfl))
        have hne1 : a.toNat ≠ 49 := fun hh => ha1 (charEq_of_toNat (by rw [hh]; rfl))
        have : 2 ≤ digitVal a := by unfold digitVal; omega
        have hbd : digitVal b ≤ 9 := digitVal_le9 hdb
        omega

/-- On an accepted year text, the year group consumes everything. -/
lemma year4_complete {ty : Str} {y : Nat} (hy : YearText ty y) :
    year4 ty = some (y, []) := by
  obtain ⟨hdig, hlen, hval⟩ := hy
  obtain ⟨a, b, c, d, rfl⟩ : ∃ a b c d, ty = [a, b, c, d] := by
    cases ty with
    | nil => simp at hlen
    | cons x1 t1 =>
      cases t1 with
      | nil => simp at hlen
      | cons x2 t2 =>
        cases t2 with
        | nil => simp at hlen
        | cons x3 t3 =>
          cases t3 with
          | nil => simp at hlen
          | cons x4 t4 =>
            cases t4 with
            | nil => exact ⟨x1, x2, x3, x4, rfl⟩
            | cons x5 t5 => simp at hlen
  simp only [List.all_cons, List.all_nil, Bool.and_eq_true, Bool.and_true] at hdig
  obtain ⟨ha, hb, hc, hd⟩ := hdig
  show (if (a.isDigit && b.isDigit && c.isDigit && d.isDigit) = true
      then some (1000 * digitVal a + 100 * digitVal b + 10 * digitVal c + digitVal d, [])
      else none) = _
  rw [if_pos (by simp [ha, hb, hc, hd])]
  rw [natOfDigits_four] at hval
  rw [hval]

/-- `tryEach` succeeds through the head alternative when its continuation
does. -/
lemma tryEach_head {α β : Type} {l : List α} {a : α} {k : α → Option β} {b : β}
    (hl : l.head? = some a) (hk : k a = some b) : tryEach l k = some b := by
  cases l with
  | nil => simp at hl
  | cons x xs =>
    have hx : x = a := by simpa using hl
    subst hx
    rw [tryEach, hk]

lemma days_in_month_le_31 (y m : Nat) : days_in_month y m ≤ 31 := by
  unfold days_in_month
  split
  · split <;> omega
  · split <;> omega

/-- Completeness: every accepted decomposition parses to its date. -/
lemma dmy_2_date_complete {td tm ty : Str} {y m d : Nat}
    (hd : DayText td d) (hm : MonthText tm m) (hy : YearText ty y)
    (hok : PyDateOK y m d) :
    dmy_2_date (td ++ '/' :: (tm ++ '/' :: ty)) = .ok ⟨y, m, d⟩ := by
  obtain ⟨hy1, hy2, hm1, hm2, hd1, hd2⟩ := hok
  have hd31 : d ≤ 31 := le_trans hd2 (days_in_month_le_31 y m)
  have h1 := dayAlts_first hd hd1 hd31 (tm ++ '/' :: ty)
  have h2 := monthAlts_first hm hm1 hm2 ty
  have h3 := year4_complete hy
  have hmain : matchDMY (td ++ '/' :: (tm ++ '/' :: ty)) = some (d, m, y) := by
    unfold matchDMY
    apply tryEach_head h1
    show tryEach (monthAlts (tm ++ '/' :: ty)) _ = some (d, m, y)
    apply tryEach_head h2
    show (match year4 ty with
      | some (y', r5) => if r5 = [] then some (d, m, y') else none
      | none => none) = some (d, m, y)
    rw [h3]
    rfl
  unfold dmy_2_date
  rw [hmain]
  show (if (decide (1 ≤ y) && decide (y ≤ 9999) && decide (1 ≤ m) && decide (m ≤ 12)
      && decide (1 ≤ d) && decide (d ≤ days_in_month y m)) = true
    then Except.ok (⟨y, m, d⟩ : PyDate) else Except.error FormatError.valueError) = _
  rw [if_pos]
  simp only [Bool.and_eq_true, decide_eq_true_eq]
  exact ⟨⟨⟨⟨⟨hy1, hy2⟩, hm1⟩, hm2⟩, hd1⟩, hd2⟩

/-- Soundness: a successful parse exhibits an accepted decomposition. -/
lemma dmy_2_date_sound {s : Str} {y m d : Nat}
    (h : dmy_2_date s = .ok ⟨y, m, d⟩) :
    (∃ td tm ty, s = td ++ '/' :: (tm ++ '/' :: ty) ∧
      DayText td d ∧ MonthText tm m ∧ YearText ty y) ∧ PyDateOK y m d := by
  unfold dmy_2_date at h
  split at h
  · exact absurd h (by simp)
  · next d0 m0 y0 heq =>
    split at h
    · next hcond =>
      simp only [Except.ok.injEq, PyDate.mk.injEq] at h
      obtain ⟨rfl, rfl, rfl⟩ := h
      simp only [Bool.and_eq_true, decide_eq_true_eq] at hcond
      obtain ⟨⟨⟨⟨⟨hy1, hy2⟩, hm1⟩, hm2⟩, hd1⟩, hd2⟩ := hcond
      refine ⟨?_, hy1, hy2, hm1, hm2, hd1, hd2⟩
      unfold matchDMY at heq
      obtain ⟨p, hmem, hk⟩ := tryEach_eq_some heq
      obtain ⟨dv, r1⟩ := p
      dsimp only at hk
      split at hk
      · next r2 =>
        obtain ⟨q, hmem2, hk2⟩ := tryEach_eq_some hk
        obtain ⟨mv, r3⟩ := q
        dsimp only at hk2
        split at hk2
        · next r4 =>
          split at hk2
          · next yv r5 heqy =>
            split at hk2
            · next hr5 =>
              simp only [Option.some.injEq, Prod.mk.injEq] at hk2
              obtain ⟨rfl, rfl, rfl⟩ := hk2
              subst hr5
              obtain ⟨td, rfl, hDT⟩ := dayAlts_sound hmem
              obtain ⟨tm, rfl, hMT⟩ := monthAlts_sound hmem2
              obtain ⟨ty, hr4, hYT⟩ := year4_sound heqy
              rw [List.append_nil] at hr4
              exact ⟨td, tm, ty, by rw [hr4], hDT, hMT, hYT⟩
            · exact absurd hk2 (by simp)
          · exact absurd hk2 (by simp)
        · exact absurd hk2 (by simp)
      · exact absurd hk (by simp)
    · exact absurd h (by simp)

/-- C8 (amended): `parse_date` accepts exactly the texts
day `/` month `/` year in which the day is one or two digits (two-digit
forms zero-padded) or a space followed by one digit, the month is one or
two digits, the year is exactly four digits, and the named calendar date
is possible (`1 ≤ year ≤ 9999`, day exists in the month); it returns that
date, and every other text — e.g. `"2022-03-05"` — and every impossible
date — e.g. `"31/02/2023"` — fails with `FormatError`. -/
theorem dmy_2_date_characterization :
    (∀ (s : Str) (y m d : Nat), dmy_2_date s = .ok ⟨y, m, d⟩ ↔
      ((∃ td tm ty, s = td ++ '/' :: (tm ++ '/' :: ty) ∧
        DayText td d ∧ MonthText tm m ∧ YearText ty y) ∧ PyDateOK y m d)) ∧
    dmy_2_date "05/03/2022".data = .ok ⟨2022, 3, 5⟩ ∧
    dmy_2_date "2022-03-05".data = .error .valueError ∧
    dmy_2_date "31/02/2023".data = .error .valueError := by
  refine ⟨fun s y m d => ⟨fun h => dmy_2_date_sound h, ?_⟩, rfl, rfl, rfl⟩
  rintro ⟨⟨td, tm, ty, rfl, hd, hm, hy⟩, hok⟩
  exact dmy_2_date_complete hd hm hy hok

/-- Witness for C8 (amended), applying the characterization at the
two-digit decomposition of `"05/03/2022"`. -/
theorem dmy_2_date_characterization_witness :
    dmy_2_date ("05".data ++ '/' :: ("03".data ++ '/' :: "2022".data)) =
      .ok ⟨2022, 3, 5⟩ :=
  (dmy_2_date_characterization.1 _ 2022 3 5).2
    ⟨⟨"05".data, "03".data, "2022".data, rfl,
      Or.inl ⟨by decide, Or.inr rfl, by decide⟩,
      ⟨by decide, Or.inr rfl, by decide⟩,
      ⟨by decide, rfl, by decide⟩⟩,
     by decide, by decide, by decide, by decide, by decide, by decide⟩

/-- C8 counterexample: the claim requires a two-digit day and month, but
the code accepts one-digit (and space-padded) forms, because `strptime`'s
`%d`/`%m` make the zero padding optional. -/
theorem dmy_2_date_accepts_unpadded :
    dmy_2_date "5/3/2022".data = .ok ⟨2022, 3, 5⟩ ∧
    dmy_2_date " 5/3/2022".data = .ok ⟨2022, 3, 5⟩ :=
  ⟨rfl, rfl⟩
